import Mathlib

/-!
Shallow embedding of `faust/event.py`: typed event records, schema
derivation by walking the class hierarchy, validated construction,
codec-based (de)serialization, and the field-descriptor / join builder.

Python classes are modelled by explicit data:
a record type is its chain of annotation "layers" (one per class in the
method-resolution order), a record instance is its `__dict__` as an
insertion-ordered association list, and the class-level machinery of
`__init_subclass__` / `__init__` becomes pure functions on those.
-/

namespace Faust

/-- Declared field types appearing in class annotations (`int`, `str`, ...).
Only their identity matters: the code never inspects them. -/
inductive Ty where
  | tint
  | tstr
  | tother (n : Nat)
deriving DecidableEq, Repr

/-- An annotation dictionary: insertion-ordered mapping from field name to
declared type, as Python `__annotations__`. -/
abbrev AList := List (String × Ty)

/-- Python `dict` single-key update semantics: a key already present keeps
its position and gets the new value; a new key is appended at the end. -/
def dictInsert (d : AList) (k : String) (v : Ty) : AList :=
  if d.any (fun p => p.1 == k) then
    d.map (fun p => if p.1 == k then (p.1, v) else p)
  else
    d ++ [(k, v)]

/-- Python `dict.update`: fold `dictInsert` over the new entries in order
(model of `fields.update(cls.__annotations__)`). -/
def dictUpdate (d : AList) (new : AList) : AList :=
  new.foldl (fun acc p => dictInsert acc p.1 p.2) d

/-- A record type: its name, the annotation layers of the ancestors above
the `Event` root marker (most-base first, e.g. `object`), the `Event`
class's own annotation layer, the layers strictly below `Event`
(most-base first, ending with the type's own declarations), and the
`serializer` class attribute set by `__init_subclass__`. -/
structure RecordType where
  name : String
  preLayers : List AList
  eventLayer : AList
  layers : List AList
  serializer : Option String
deriving DecidableEq, Repr

/-- The annotations declared in the body of the `Event` class itself:
`req: Request = None` and `_fields: Mapping[str, type]`
(`_fieldset` is a plain assignment, not an annotation). -/
def eventAnnotations : AList := [("req", Ty.tother 0), ("_fields", Ty.tother 1)]

/-- The `Event` root marker class itself: above it only `object` (no
annotations), its own layer is `eventAnnotations`, nothing below. -/
def eventRoot : RecordType :=
  { name := "Event"
    preLayers := [[]]
    eventLayer := eventAnnotations
    layers := []
    serializer := none }

/-- Model of declaring `class Sub(Parent, serializer=...)`:
`__init_subclass__` runs, sets `cls.serializer = serializer` (default
`None`, regardless of what the parent declared) and records the new
class's own annotations as one more layer below the root marker. -/
def declareSubclass (parent : RecordType) (ownAnnots : AList)
    (serializerArg : Option String) (nm : String) : RecordType :=
  { name := nm
    preLayers := parent.preLayers
    eventLayer := parent.eventLayer
    layers := parent.layers ++ [ownAnnots]
    serializer := serializerArg }

/-- The `reversed(cls.__mro__)` sequence seen by `__init_subclass__`:
each entry is (this class is `Event`, its annotations), most-base first. -/
def reversedMro (t : RecordType) : List (Bool × AList) :=
  t.preLayers.map (fun a => (false, a)) ++ [(true, t.eventLayer)]
    ++ t.layers.map (fun a => (false, a))

/-- The field-collection loop of `__init_subclass__`: walk the reversed
mro with the `wanted_baseclass` flag; while the flag is unset, only test
whether the current class is `Event`; once set, `dict.update` each
class's annotations into the accumulator. -/
def collectFields : List (Bool × AList) → Bool → AList → AList
  | [], _, acc => acc
  | (isEvent, annots) :: rest, wanted, acc =>
    if wanted then collectFields rest wanted (dictUpdate acc annots)
    else collectFields rest isEvent acc

/-- The `_fields` mapping computed by `__init_subclass__`. -/
def fields (t : RecordType) : AList :=
  collectFields (reversedMro t) false []

/-- The `_fieldset` frozenset: the keys of `_fields` (kept as a list;
its keys are provably duplicate-free). -/
def fieldset (t : RecordType) : List String :=
  (fields t).map Prod.fst

/-- The schema one obtains by merging only the declaration layers strictly
below the root marker class, most-base first. -/
def mergeLayers (ls : List AList) : AList :=
  ls.foldl dictUpdate []

/-- Runtime values stored in record fields and payload mappings. -/
inductive Value where
  | vint (n : Int)
  | vstr (s : String)
  | vnone
deriving DecidableEq, Repr

/-- Modelled from the spec: the raw transport payload produced/consumed by
a codec (`bytes|text`); a decoded payload is a flat name-to-value
mapping, anything else is opaque raw data. The codec implementations
live outside `src` (`faust/utils/serialization.py`). -/
inductive Payload where
  | pmap (m : List (String × Value))
  | praw (s : String)
deriving DecidableEq, Repr

/-- Modelled from the spec: the opaque transport message handle
(`faust/types.py` is outside `src`); the code only reads its `value`
attribute, the raw payload. -/
structure Message where
  value : Payload
deriving DecidableEq, Repr

/-- Modelled from the spec: the Request Context, a plain tuple
`(key, topic, partition, message)` (`faust/types.py` is outside `src`). -/
structure Request where
  key : Value
  topic : String
  partition : Int
  message : Message
deriving DecidableEq, Repr

/-- An entry of an instance `__dict__`: either an ordinary field value or
a Request object (as passed by `from_message` under the key `req`). -/
inductive DictVal where
  | ofValue (v : Value)
  | ofRequest (r : Request)
deriving DecidableEq, Repr

/-- An instance `__dict__`: insertion-ordered association list. -/
abbrev DMap := List (String × DictVal)

/-- Lift a flat decoded payload mapping into `__dict__` entries. -/
def liftMap (m : List (String × Value)) : DMap :=
  m.map (fun kv => (kv.1, DictVal.ofValue kv.2))

/-- Modelled from the spec: an encode/decode capability registered under a
serializer identifier (`faust/utils/serialization.py` is outside `src`).
Either direction may fail (codec-level failure). -/
structure Codec where
  encode : DMap → Option Payload
  decode : Payload → Option (List (String × Value))

/-- Modelled from the spec: the codec registry, a mapping from serializer
identifier to codec; later registrations are looked up first so the last
registration wins. -/
abbrev CodecRegistry := List (String × Codec)

/-- Look a codec up by identifier. -/
def lookupCodec (reg : CodecRegistry) (sid : String) : Option Codec :=
  reg.lookup sid

/-- Serialization-layer failures. -/
inductive SerError where
  | unknownSerializer
  | encodeFailed
  | decodeFailed
deriving DecidableEq, Repr

/-- Schema-validation failures raised by `Event.__init__`. -/
inductive ConstructError where
  | missingFields (names : List String)
  | unexpectedFields (names : List String)
deriving DecidableEq, Repr

/-- Every failure an event operation can raise: a construction-time
`TypeError`, a serialization error, or a `KeyError` from `_asitems`
reading a key absent from `__dict__`. -/
inductive EventError where
  | construct (e : ConstructError)
  | ser (e : SerError)
  | keyError (k : String)
deriving DecidableEq, Repr

/-- Modelled from the spec: `loads(serializer, payload)` of
`faust/utils/serialization.py` — look the codec up (an unset serializer
identifier is absent from the registry) and decode the payload. -/
def serLoads (reg : CodecRegistry) (ser : Option String) (payload : Payload) :
    Except SerError (List (String × Value)) :=
  match ser with
  | none => .error .unknownSerializer
  | some sid =>
    match lookupCodec reg sid with
    | none => .error .unknownSerializer
    | some c =>
      match c.decode payload with
      | none => .error .decodeFailed
      | some m => .ok m

/-- Modelled from the spec: `dumps(serializer, mapping)` of
`faust/utils/serialization.py` — look the codec up and encode. -/
def serDumps (reg : CodecRegistry) (ser : Option String) (m : DMap) :
    Except SerError Payload :=
  match ser with
  | none => .error .unknownSerializer
  | some sid =>
    match lookupCodec reg sid with
    | none => .error .unknownSerializer
    | some c =>
      match c.encode m with
      | none => .error .encodeFailed
      | some p => .ok p

/-- A constructed record: its type and its instance `__dict__`. -/
structure Record where
  type : RecordType
  dict : DMap
deriving DecidableEq, Repr

/-- Keys of a `__dict__`, in insertion order. -/
def keysOf (m : DMap) : List String :=
  m.map Prod.fst

/-- Python `sorted` on a list of names (ascending lexicographic). -/
def sortNames (l : List String) : List String :=
  List.insertionSort (fun a b => a ≤ b) l

/-- Model of `Event.__init__(self, **fields)`: compute
`missing = _fieldset - keys`, raise `TypeError` listing them sorted if
non-empty; then `extraneous = keys - _fieldset`, raise likewise; else
`self.__dict__.update(fields)` stores the values verbatim. -/
def Event.init (t : RecordType) (supplied : DMap) : Except EventError Record :=
  let fset := fieldset t
  let kset := keysOf supplied
  let missing := fset.filter (fun k => !kset.contains k)
  if missing.isEmpty then
    let extraneous := kset.filter (fun k => !fset.contains k)
    if extraneous.isEmpty then .ok { type := t, dict := supplied }
    else .error (.construct (.unexpectedFields (sortNames extraneous)))
  else .error (.construct (.missingFields (sortNames missing)))

/-- Model of `Event.loads(s, **kwargs)`:
`cls(**kwargs, **loads(cls.serializer, s))` — decode the payload, then
construct, the explicit kwargs preceding the decoded fields. -/
def Event.loads (reg : CodecRegistry) (t : RecordType) (s : Payload)
    (kwargs : DMap) : Except EventError Record :=
  match serLoads reg t.serializer s with
  | .error e => .error (.ser e)
  | .ok m => Event.init t (kwargs ++ liftMap m)

/-- Model of `Event.from_message`: build the Request from the four inputs
and call `loads(message.value, req=request)` — the request is passed as
the keyword argument `req` into the schema-validated constructor. -/
def Event.from_message (reg : CodecRegistry) (t : RecordType) (key : Value)
    (topic : String) (pt : Int) (message : Message) :
    Except EventError Record :=
  let request : Request := { key := key, topic := topic, partition := pt, message := message }
  Event.loads reg t message.value [("req", DictVal.ofRequest request)]

/-- Helper for `_asitems`: read each schema key out of `__dict__`
(`self.__dict__[key]`, raising `KeyError` when absent). -/
def asdictAux (dict : DMap) : AList → Except EventError DMap
  | [] => .ok []
  | kt :: rest =>
    match dict.lookup kt.1 with
    | none => .error (.keyError kt.1)
    | some v =>
      match asdictAux dict rest with
      | .error e => .error e
      | .ok tail => .ok ((kt.1, v) :: tail)

/-- Model of `Event._asdict`: the (name, value) pairs in `_fields`
(schema declaration) order. -/
def Event.asdict (r : Record) : Except EventError DMap :=
  asdictAux r.dict (fields r.type)

/-- Projection of a flat mapping onto a schema: the (name, value) pairs in
schema order, skipping schema names absent from the mapping (used to
state what `_asdict` computes). -/
def projectV (m : List (String × Value)) : AList → List (String × Value)
  | [] => []
  | kt :: rest =>
    match m.lookup kt.1 with
    | none => projectV m rest
    | some v => (kt.1, v) :: projectV m rest

/-- Model of `Event.dumps`: `dumps(self.serializer, self._asdict())`. -/
def Event.dumps (reg : CodecRegistry) (r : Record) : Except EventError Payload :=
  match Event.asdict r with
  | .error e => .error e
  | .ok m =>
    match serDumps reg r.type.serializer m with
    | .error e => .error (.ser e)
    | .ok p => .ok p

/-- The deserialization entry of the external interface:
decode then construct (`loads` with no extra keyword arguments). -/
def deserialize (reg : CodecRegistry) (t : RecordType) (s : Payload) :
    Except EventError Record :=
  Event.loads reg t s []

/-- Python `repr` of the flat runtime values (`repr(100)`, `repr("x")`,
`repr(None)`). -/
def reprValue : Value → String
  | .vint n => toString n
  | .vstr s => "\x27" ++ s ++ "\x27"
  | .vnone => "None"

/-- Python `repr` of a `__dict__` entry. The Request type lives outside
`src`; its own repr is never relied on by any theorem and is rendered as
an opaque tag. -/
def reprDictVal : DictVal → String
  | .ofValue v => reprValue v
  | .ofRequest _ => "<Request>"

/-- Model of `_kvrepr`: entries rendered as `k={repr v}` joined by a
comma and space, in the mapping's own (insertion) order. -/
def kvrepr (d : DMap) : String :=
  String.intercalate ", " (d.map (fun kv => kv.1 ++ "=" ++ reprDictVal kv.2))

/-- Model of `Event.__repr__`: `<TypeName: {_kvrepr(self.__dict__)}>`. -/
def Event.repr (r : Record) : String :=
  "<" ++ r.type.name ++ ": " ++ kvrepr r.dict ++ ">"

/-- A field descriptor holds only its field name. -/
structure FieldDescriptor where
  field : String
deriving DecidableEq, Repr

/-- Modelled from the spec: the Join Expression data contract — a
directional pairing of two (record type name, field name) references.
The source's join path is a stub and never actually produces one. -/
structure JoinExpression where
  left : String × String
  right : String × String
deriving DecidableEq, Repr

/-- Model of `FieldDescriptor.join`: the body only prints
`join {repr self.field} with {repr other.field}` and returns `None`
(the `TODO Return StreamT` stub). The result is the returned value
(no Join Expression, hence `none`) paired with the printed output. -/
def FieldDescriptor.join (a b : FieldDescriptor) :
    Option JoinExpression × String :=
  (none, "join " ++ "\x27" ++ a.field ++ "\x27" ++ " with "
    ++ "\x27" ++ b.field ++ "\x27")

/-- Model of `FieldDescriptor.__and__`: `self.join(other)`. -/
def FieldDescriptor.andOp (a b : FieldDescriptor) :
    Option JoinExpression × String :=
  a.join b

/-- Python attribute lookup of `__annotations__` on a class object: the
most-derived class in the mro whose body declared any annotation (an
empty layer models a class body without annotations). -/
def ownAnnotations (t : RecordType) : AList :=
  match (t.layers.reverse ++ [t.eventLayer] ++ t.preLayers.reverse).find?
      (fun l => !l.isEmpty) with
  | some l => l
  | none => []

/-- A bound event: the event type, the object bound to, and the field
descriptors installed into the instance `__dict__`. -/
structure BoundEvent where
  event : RecordType
  obj : Value
  dict : List (String × FieldDescriptor)
deriving DecidableEq, Repr

/-- Model of `BoundEvent.__init__`: one `FieldDescriptor(field)` per key
of `self.event.__annotations__` (the attribute-looked-up annotation
dictionary, not the merged `_fields`). -/
def BoundEvent.bind (event : RecordType) (obj : Value) : BoundEvent :=
  { event := event
    obj := obj
    dict := (ownAnnotations event).map (fun kt => (kt.1, ⟨kt.1⟩)) }

/-- The `Order` type of the spec's concrete scenario:
`amount: int`, `currency: str`, `serializer="json"`. -/
def OrderType : RecordType :=
  declareSubclass eventRoot [("amount", Ty.tint), ("currency", Ty.tstr)]
    (some "json") "Order"

/-- A two-field demo type with no serializer. -/
def PairType : RecordType :=
  declareSubclass eventRoot [("a", Ty.tint), ("b", Ty.tint)] none "Pair"

/-- Flatten a `__dict__` into a payload mapping, failing on any entry that
is not a flat value (such as a Request). -/
def encodeFlat : DMap → Option (List (String × Value))
  | [] => some []
  | (k, DictVal.ofValue v) :: rest => (encodeFlat rest).map (fun r => (k, v) :: r)
  | (_, DictVal.ofRequest _) :: _ => none

/-- A json-like demo codec: encodes a `__dict__` of flat values as a
payload mapping (failing on a non-flat entry such as a Request), and
decodes a payload mapping back. -/
def jsonCodec : Codec where
  encode m := (encodeFlat m).map Payload.pmap
  decode p :=
    match p with
    | .pmap m => some m
    | .praw _ => none

/-- A registry holding the json demo codec. -/
def demoRegistry : CodecRegistry := [("json", jsonCodec)]

/-- A demo base type declaring fields `a` and `b`. -/
def BaseT : RecordType :=
  declareSubclass eventRoot [("a", Ty.tint), ("b", Ty.tint)] none "Base"

/-- A demo subtype of `BaseT` redeclaring `b` (with a different type) and
adding `c`. -/
def DerivedT : RecordType :=
  declareSubclass BaseT [("b", Ty.tstr), ("c", Ty.tint)] none "Derived"

/-- A demo type redeclaring the name `req`, which the `Event` root marker
also declares. -/
def ReqChildType : RecordType :=
  declareSubclass eventRoot [("req", Ty.tint)] none "ReqChild"

/-- A demo type declared with `serializer="json"`. -/
def BaseJsonT : RecordType :=
  declareSubclass eventRoot [("x", Ty.tint)] (some "json") "BaseJson"

/-! ## Dictionary and schema-derivation lemmas -/

theorem keys_dictInsert_of_any (d : AList) (k : String) (v : Ty)
    (h : d.any (fun p => p.1 == k) = true) :
    (dictInsert d k v).map Prod.fst = d.map Prod.fst := by
  simp only [dictInsert, if_pos h, List.map_map]
  apply List.map_congr_left
  intro p _
  simp only [Function.comp_apply]
  split <;> rfl

theorem keys_dictInsert_of_not_any (d : AList) (k : String) (v : Ty)
    (h : ¬ d.any (fun p => p.1 == k) = true) :
    (dictInsert d k v).map Prod.fst = d.map Prod.fst ++ [k] := by
  simp only [dictInsert, if_neg h, List.map_append, List.map_cons, List.map_nil]

theorem mem_keys_dictInsert (d : AList) (k : String) (v : Ty) (a : String) :
    a ∈ (dictInsert d k v).map Prod.fst ↔ a ∈ d.map Prod.fst ∨ a = k := by
  by_cases h : d.any (fun p => p.1 == k) = true
  · rw [keys_dictInsert_of_any d k v h]
    constructor
    · exact Or.inl
    · rintro (ha | rfl)
      · exact ha
      · obtain ⟨p, hp, hpk⟩ := List.any_eq_true.mp h
        simp only [beq_iff_eq] at hpk
        exact hpk ▸ List.mem_map_of_mem Prod.fst hp
  · rw [keys_dictInsert_of_not_any d k v h]
    simp

theorem nodup_keys_dictInsert (d : AList) (k : String) (v : Ty)
    (h : (d.map Prod.fst).Nodup) : ((dictInsert d k v).map Prod.fst).Nodup := by
  by_cases hc : d.any (fun p => p.1 == k) = true
  · rwa [keys_dictInsert_of_any d k v hc]
  · rw [keys_dictInsert_of_not_any d k v hc]
    have hk : k ∉ d.map Prod.fst := by
      intro hk
      obtain ⟨p, hp, hpk⟩ := List.mem_map.mp hk
      exact hc (List.any_eq_true.mpr ⟨p, hp, by simp [hpk]⟩)
    rw [(List.perm_append_singleton k (d.map Prod.fst)).nodup_iff, List.nodup_cons]
    exact ⟨hk, h⟩

theorem mem_keys_dictUpdate (d new : AList) (a : String) :
    a ∈ (dictUpdate d new).map Prod.fst ↔
      a ∈ d.map Prod.fst ∨ a ∈ new.map Prod.fst := by
  induction new generalizing d with
  | nil => simp [dictUpdate]
  | cons p rest ih =>
    have hstep : dictUpdate d (p :: rest) = dictUpdate (dictInsert d p.1 p.2) rest := rfl
    rw [hstep, ih, mem_keys_dictInsert]
    simp only [List.map_cons, List.mem_cons]
    tauto

theorem nodup_keys_dictUpdate (d new : AList)
    (h : (d.map Prod.fst).Nodup) : ((dictUpdate d new).map Prod.fst).Nodup := by
  induction new generalizing d with
  | nil => exact h
  | cons p rest ih =>
    exact ih (dictInsert d p.1 p.2) (nodup_keys_dictInsert d p.1 p.2 h)

theorem collectFields_wanted (l : List (Bool × AList)) (acc : AList) :
    collectFields l true acc = l.foldl (fun a e => dictUpdate a e.2) acc := by
  induction l generalizing acc with
  | nil => rfl
  | cons e rest ih =>
    obtain ⟨b, ann⟩ := e
    simp [collectFields, ih]

theorem collectFields_skip (pre rest : List (Bool × AList)) (acc : AList)
    (h : ∀ e ∈ pre, e.1 = false) :
    collectFields (pre ++ rest) false acc = collectFields rest false acc := by
  induction pre with
  | nil => rfl
  | cons e pre' ih =>
    obtain ⟨b, ann⟩ := e
    have hb : b = false := h (b, ann) (List.mem_cons_self _ _)
    subst hb
    simpa [collectFields] using ih (fun e he => h e (List.mem_cons_of_mem _ he))

theorem fields_eq_mergeLayers (t : RecordType) :
    fields t = mergeLayers t.layers := by
  unfold fields reversedMro
  rw [List.append_assoc,
    collectFields_skip (t.preLayers.map (fun a => (false, a))) _ []
      (by intro e he; obtain ⟨a, _, rfl⟩ := List.mem_map.mp he; rfl)]
  show collectFields (t.layers.map (fun a => (false, a))) true [] = _
  rw [collectFields_wanted, List.foldl_map]
  rfl

theorem mem_keys_mergeLayers_foldl (ls : List AList) (d : AList) (a : String) :
    a ∈ (ls.foldl dictUpdate d).map Prod.fst ↔
      a ∈ d.map Prod.fst ∨ ∃ l ∈ ls, a ∈ l.map Prod.fst := by
  induction ls generalizing d with
  | nil => simp
  | cons l rest ih =>
    rw [List.foldl_cons, ih, mem_keys_dictUpdate]
    simp only [List.mem_cons]
    constructor
    · rintro ((h | h) | ⟨l2, hl2, h⟩)
      · exact Or.inl h
      · exact Or.inr ⟨l, Or.inl rfl, h⟩
      · exact Or.inr ⟨l2, Or.inr hl2, h⟩
    · rintro (h | ⟨l2, (rfl | hl2), h⟩)
      · exact Or.inl (Or.inl h)
      · exact Or.inl (Or.inr h)
      · exact Or.inr ⟨l2, hl2, h⟩

theorem mem_fieldset_iff (t : RecordType) (a : String) :
    a ∈ fieldset t ↔ ∃ l ∈ t.layers, a ∈ l.map Prod.fst := by
  rw [fieldset, fields_eq_mergeLayers, mergeLayers,
    mem_keys_mergeLayers_foldl]
  simp

theorem nodup_keys_foldl (ls : List AList) (d : AList)
    (h : (d.map Prod.fst).Nodup) :
    ((ls.foldl dictUpdate d).map Prod.fst).Nodup := by
  induction ls generalizing d with
  | nil => exact h
  | cons l rest ih => exact ih _ (nodup_keys_dictUpdate d l h)

theorem fieldset_nodup (t : RecordType) : (fieldset t).Nodup := by
  rw [fieldset, fields_eq_mergeLayers, mergeLayers]
  exact nodup_keys_foldl t.layers [] (by simp)

/-! ## Sorting lemmas -/

theorem mem_sortNames {a : String} {l : List String} :
    a ∈ sortNames l ↔ a ∈ l :=
  (List.perm_insertionSort _ l).mem_iff

theorem sorted_sortNames (l : List String) :
    (sortNames l).Sorted (fun a b : String => a ≤ b) :=
  List.sorted_insertionSort _ l

/-! ## Construction (`Event.__init__`) lemmas -/

theorem init_eq_ok (t : RecordType) (s : DMap)
    (h : ∀ k, k ∈ keysOf s ↔ k ∈ fieldset t) :
    Event.init t s = .ok { type := t, dict := s } := by
  have h1 : ∀ a ∈ fieldset t, a ∈ keysOf s := fun a ha => (h a).mpr ha
  have h2 : ∀ a ∈ keysOf s, a ∈ fieldset t := fun a ha => (h a).mp ha
  simp [Event.init]
  rw [if_pos h1, if_pos h2]

theorem init_missing (t : RecordType) (s : DMap)
    (h : ∃ k, k ∈ fieldset t ∧ k ∉ keysOf s) :
    ∃ L, Event.init t s = .error (.construct (.missingFields L)) ∧
      L.Sorted (fun a b : String => a ≤ b) ∧
      (∀ k, k ∈ L ↔ (k ∈ fieldset t ∧ k ∉ keysOf s)) := by
  obtain ⟨k0, hk0f, hk0s⟩ := h
  have hm : ¬ ∀ a ∈ fieldset t, a ∈ keysOf s := fun hall => hk0s (hall k0 hk0f)
  refine ⟨sortNames ((fieldset t).filter (fun k => !(keysOf s).contains k)),
    ?_, sorted_sortNames _, ?_⟩
  · simp [Event.init]
    exact fun hc => absurd hc hm
  · intro k
    rw [mem_sortNames, List.mem_filter]
    simp [List.contains]

theorem init_unexpected (t : RecordType) (s : DMap)
    (hnomiss : ∀ k ∈ fieldset t, k ∈ keysOf s)
    (h : ∃ k, k ∈ keysOf s ∧ k ∉ fieldset t) :
    ∃ L, Event.init t s = .error (.construct (.unexpectedFields L)) ∧
      L.Sorted (fun a b : String => a ≤ b) ∧
      (∀ k, k ∈ L ↔ (k ∈ keysOf s ∧ k ∉ fieldset t)) := by
  obtain ⟨k0, hk0s, hk0f⟩ := h
  have he : ¬ ∀ a ∈ keysOf s, a ∈ fieldset t := fun hall => hk0f (hall k0 hk0s)
  refine ⟨sortNames ((keysOf s).filter (fun k => !(fieldset t).contains k)),
    ?_, sorted_sortNames _, ?_⟩
  · simp [Event.init]
    rw [if_pos hnomiss, if_neg he]
  · intro k
    rw [mem_sortNames, List.mem_filter]
    simp [List.contains]

theorem init_ok_elim (t : RecordType) (s : DMap) (r : Record)
    (h : Event.init t s = .ok r) :
    r = { type := t, dict := s } ∧ (∀ k, k ∈ keysOf s ↔ k ∈ fieldset t) := by
  by_cases hm : ∀ a ∈ fieldset t, a ∈ keysOf s
  · by_cases he : ∀ a ∈ keysOf s, a ∈ fieldset t
    · have hiff : ∀ k, k ∈ keysOf s ↔ k ∈ fieldset t :=
        fun k => ⟨fun hk => he k hk, fun hk => hm k hk⟩
      have heq := init_eq_ok t s hiff
      rw [heq] at h
      injection h with h2
      exact ⟨h2.symm, hiff⟩
    · push_neg at he
      obtain ⟨k0, hk0s, hk0f⟩ := he
      obtain ⟨L, hL, _, _⟩ := init_unexpected t s hm ⟨k0, hk0s, hk0f⟩
      rw [hL] at h
      exact Except.noConfusion h
  · push_neg at hm
    obtain ⟨k0, hk0f, hk0s⟩ := hm
    obtain ⟨L, hL, _, _⟩ := init_missing t s ⟨k0, hk0f, hk0s⟩
    rw [hL] at h
    exact Except.noConfusion h

theorem init_ok_iff (t : RecordType) (s : DMap) :
    (∃ r, Event.init t s = .ok r) ↔ (∀ k, k ∈ keysOf s ↔ k ∈ fieldset t) := by
  constructor
  · rintro ⟨r, hr⟩
    exact (init_ok_elim t s r hr).2
  · intro h
    exact ⟨_, init_eq_ok t s h⟩

/-! ## Lookup, projection and codec lemmas -/

theorem keysOf_liftMap (m : List (String × Value)) :
    keysOf (liftMap m) = m.map Prod.fst := by
  induction m with
  | nil => rfl
  | cons kv rest ih => simp [keysOf, liftMap]

theorem lookup_liftMap (m : List (String × Value)) (k : String) :
    (liftMap m).lookup k = (m.lookup k).map DictVal.ofValue := by
  induction m with
  | nil => rfl
  | cons kv rest ih =>
    obtain ⟨a, b⟩ := kv
    show ((a, DictVal.ofValue b) :: liftMap rest).lookup k = _
    rw [List.lookup_cons, List.lookup_cons]
    by_cases hk : (k == a) = true
    · simp [hk]
    · simp only [Bool.not_eq_true] at hk
      simp [hk, ih]

theorem lookup_none_of_not_mem (m : List (String × Value)) (k : String)
    (h : k ∉ m.map Prod.fst) : m.lookup k = none := by
  rw [List.lookup_eq_none_iff]
  intro p hp
  simp only [bne_iff_ne, ne_eq]
  intro hk
  exact h (hk ▸ List.mem_map_of_mem Prod.fst hp)

theorem lookup_isSome_of_mem (m : List (String × Value)) (k : String)
    (h : k ∈ m.map Prod.fst) : ∃ v, m.lookup k = some v := by
  induction m with
  | nil => simp at h
  | cons kv rest ih =>
    obtain ⟨a, b⟩ := kv
    by_cases hk : k = a
    · exact ⟨b, by simp [List.lookup_cons, hk]⟩
    · have hmem : k ∈ rest.map Prod.fst := by
        simp only [List.map_cons, List.mem_cons] at h
        exact h.resolve_left hk
      obtain ⟨v, hv⟩ := ih hmem
      refine ⟨v, ?_⟩
      rw [List.lookup_cons]
      simp [beq_eq_false_iff_ne.mpr hk, hv]

theorem keys_projectV (m : List (String × Value)) (fl : AList)
    (h : ∀ k ∈ fl.map Prod.fst, k ∈ m.map Prod.fst) :
    (projectV m fl).map Prod.fst = fl.map Prod.fst := by
  induction fl with
  | nil => rfl
  | cons kt rest ih =>
    obtain ⟨v, hv⟩ := lookup_isSome_of_mem m kt.1 (h kt.1 (by simp))
    simp only [projectV]
    rw [hv]
    simp only [List.map_cons]
    rw [ih (fun k hk => h k (by simp [hk]))]

theorem lookup_projectV_mem (m : List (String × Value)) (fl : AList) (k : String)
    (h : ∀ a ∈ fl.map Prod.fst, a ∈ m.map Prod.fst)
    (hk : k ∈ fl.map Prod.fst) :
    (projectV m fl).lookup k = m.lookup k := by
  induction fl with
  | nil => simp at hk
  | cons kt rest ih =>
    obtain ⟨v, hv⟩ := lookup_isSome_of_mem m kt.1 (h kt.1 (by simp))
    simp only [projectV]
    rw [hv, List.lookup_cons]
    by_cases hkk : k = kt.1
    · subst hkk
      simp [hv]
    · have hk2 : k ∈ rest.map Prod.fst := by
        simp only [List.map_cons, List.mem_cons] at hk
        exact hk.resolve_left hkk
      simp only [show (k == kt.1) = false by simpa using hkk, if_neg]
      exact ih (fun a ha => h a (by simp [ha])) hk2

theorem lookup_projectV_not_mem (m : List (String × Value)) (fl : AList) (k : String)
    (hk : k ∉ fl.map Prod.fst) :
    (projectV m fl).lookup k = none := by
  induction fl with
  | nil => rfl
  | cons kt rest ih =>
    have hk1 : k ≠ kt.1 := fun h => hk (by simp [h])
    have hk2 : k ∉ rest.map Prod.fst := fun h => hk (by simp [h])
    simp only [projectV]
    cases hv : m.lookup kt.1 with
    | none => exact ih hk2
    | some v =>
      rw [List.lookup_cons]
      simp [beq_eq_false_iff_ne.mpr hk1, ih hk2]

theorem asdictAux_liftMap (m : List (String × Value)) (fl : AList)
    (h : ∀ k ∈ fl.map Prod.fst, k ∈ m.map Prod.fst) :
    asdictAux (liftMap m) fl = .ok (liftMap (projectV m fl)) := by
  induction fl with
  | nil => rfl
  | cons kt rest ih =>
    obtain ⟨v, hv⟩ := lookup_isSome_of_mem m kt.1 (h kt.1 (by simp))
    have hlift : (liftMap m).lookup kt.1 = some (DictVal.ofValue v) := by
      rw [lookup_liftMap, hv]
      rfl
    simp only [asdictAux]
    rw [hlift, ih (fun k hk => h k (by simp [hk]))]
    simp only [projectV]
    rw [hv]
    rfl

theorem encodeFlat_liftMap (fm : List (String × Value)) :
    encodeFlat (liftMap fm) = some fm := by
  induction fm with
  | nil => rfl
  | cons kv rest ih =>
    obtain ⟨a, b⟩ := kv
    show (encodeFlat (liftMap rest)).map (fun r => (a, b) :: r) = some ((a, b) :: rest)
    rw [ih]
    rfl

theorem jsonCodec_roundtrip (fm : List (String × Value)) :
    ∃ p, jsonCodec.encode (liftMap fm) = some p ∧
      jsonCodec.decode p = some fm := by
  refine ⟨Payload.pmap fm, ?_, rfl⟩
  show (encodeFlat (liftMap fm)).map Payload.pmap = some (Payload.pmap fm)
  rw [encodeFlat_liftMap]
  rfl

/-! ## Claim theorems -/

/-- C1: the claim says `from_message` attaches the Request Context to the
record built from the decoded payload under the same validation as direct
construction. In the code, `loads` passes the request as the keyword
argument `req` into the schema-validated `__init__`, where `req` is not a
schema field, so `from_message` fails with an unexpected-fields error on
the very payload whose direct construction succeeds: the Request Context
is never attached. -/
theorem C1_from_message_rejects_req :
    Event.from_message demoRegistry OrderType (Value.vstr "k1") "orders" 0
        { value := Payload.pmap [("amount", Value.vint 100), ("currency", Value.vstr "USD")] }
      = .error (.construct (.unexpectedFields ["req"])) ∧
    Event.init OrderType (liftMap [("amount", Value.vint 100), ("currency", Value.vstr "USD")])
      = .ok { type := OrderType,
              dict := liftMap [("amount", Value.vint 100), ("currency", Value.vstr "USD")] } :=
  ⟨rfl, rfl⟩

/-- C2 (amended): construction succeeds iff the supplied key set equals the
schema field set; on success the values are stored verbatim; a non-empty
missing set fails with `MissingFields` carrying the sorted missing names;
a non-empty extraneous set fails with `UnexpectedFields` carrying the
sorted extra names, but only when no field is missing (the missing-fields
check fires first). -/
theorem C2_construction_validation (t : RecordType) (s : DMap) :
    ((∃ r, Event.init t s = .ok r) ↔ (∀ k, k ∈ keysOf s ↔ k ∈ fieldset t)) ∧
    (∀ r, Event.init t s = .ok r → r = { type := t, dict := s }) ∧
    ((∃ k, k ∈ fieldset t ∧ k ∉ keysOf s) →
      ∃ L, Event.init t s = .error (.construct (.missingFields L)) ∧
        L.Sorted (fun x y : String => x ≤ y) ∧
        (∀ k, k ∈ L ↔ (k ∈ fieldset t ∧ k ∉ keysOf s))) ∧
    ((∀ k ∈ fieldset t, k ∈ keysOf s) → (∃ k, k ∈ keysOf s ∧ k ∉ fieldset t) →
      ∃ L, Event.init t s = .error (.construct (.unexpectedFields L)) ∧
        L.Sorted (fun x y : String => x ≤ y) ∧
        (∀ k, k ∈ L ↔ (k ∈ keysOf s ∧ k ∉ fieldset t))) :=
  ⟨init_ok_iff t s, fun r h => (init_ok_elim t s r h).1,
    init_missing t s, init_unexpected t s⟩

/-- C2 witness: at a concrete input omitting field `a`, the theorem yields
the `MissingFields` failure. -/
theorem C2_construction_validation_witness :
    ∃ L, Event.init PairType [("b", DictVal.ofValue (Value.vint 1))]
        = .error (.construct (.missingFields L)) ∧
      L.Sorted (fun x y : String => x ≤ y) ∧
      (∀ k, k ∈ L ↔ (k ∈ fieldset PairType ∧
        k ∉ keysOf [("b", DictVal.ofValue (Value.vint 1))])) :=
  (C2_construction_validation PairType [("b", DictVal.ofValue (Value.vint 1))]).2.2.1
    ⟨"a", by decide, by decide⟩

/-- C2 counterexample: an input with `b` supplied, `a` missing and `c`
extraneous fails with `MissingFields ["a"]`, not with the
`UnexpectedFields ["c"]` failure the claim requires for any input whose
extra set is non-empty. -/
theorem C2_counterexample :
    Event.init PairType [("b", DictVal.ofValue (Value.vint 1)), ("c", DictVal.ofValue (Value.vint 2))]
      = .error (.construct (.missingFields ["a"])) ∧
    ("c" ∈ keysOf [("b", DictVal.ofValue (Value.vint 1)), ("c", DictVal.ofValue (Value.vint 2))] ∧
      "c" ∉ fieldset PairType) ∧
    ConstructError.missingFields ["a"] ≠ ConstructError.unexpectedFields ["c"] :=
  ⟨rfl, by decide, by decide⟩

/-- C3: for a hierarchy `Base` declaring `{a, b}` and `Derived(Base)`
declaring `{b, c}` with a different type for `b`, the derived schema is
the ordered mapping `[a, b, c]` where `b` keeps its first-declaration
position but carries the type declared by `Derived`. -/
theorem C3_schema_merge (a b c : String) (ta tb tb2 tc : Ty)
    (hab : a ≠ b) (hbc : b ≠ c) (hac : a ≠ c) (hty : tb ≠ tb2) :
    fields (declareSubclass (declareSubclass eventRoot [(a, ta), (b, tb)] none "Base")
        [(b, tb2), (c, tc)] none "Derived")
      = [(a, ta), (b, tb2), (c, tc)] := by
  rw [fields_eq_mergeLayers]
  show mergeLayers [[(a, ta), (b, tb)], [(b, tb2), (c, tc)]] = _
  have h1 : (a == b) = false := beq_eq_false_iff_ne.mpr hab
  have h2 : (b == c) = false := beq_eq_false_iff_ne.mpr hbc
  have h3 : (a == c) = false := beq_eq_false_iff_ne.mpr hac
  simp [mergeLayers, dictUpdate, dictInsert, h1, h2, h3, hab, hbc, hac]

/-- C3 witness: the merge at concrete names and types. -/
theorem C3_schema_merge_witness :
    fields (declareSubclass (declareSubclass eventRoot [("a", Ty.tint), ("b", Ty.tint)] none "Base")
        [("b", Ty.tstr), ("c", Ty.tint)] none "Derived")
      = [("a", Ty.tint), ("b", Ty.tstr), ("c", Ty.tint)] :=
  C3_schema_merge "a" "b" "c" Ty.tint Ty.tint Ty.tstr Ty.tint
    (by decide) (by decide) (by decide) (by decide)

/-- C5 (amended): both checks exist and each can fire — construction never
succeeds while a field is extraneous (extras are never silently ignored)
nor while a field is missing (missing fields are never defaulted) — but
they run sequentially, missing first: an input with both kinds of errors
fails with `MissingFields` alone and no `UnexpectedFields` error is
reported for it. -/
theorem C5_both_checks (t : RecordType) (s : DMap) :
    ((∃ k, k ∈ keysOf s ∧ k ∉ fieldset t) → ∀ r, Event.init t s ≠ .ok r) ∧
    ((∃ k, k ∈ fieldset t ∧ k ∉ keysOf s) → ∀ r, Event.init t s ≠ .ok r) ∧
    ((∃ k, k ∈ fieldset t ∧ k ∉ keysOf s) → (∃ k, k ∈ keysOf s ∧ k ∉ fieldset t) →
      ∃ L, Event.init t s = .error (.construct (.missingFields L)) ∧
        ∀ N, Event.init t s ≠ .error (.construct (.unexpectedFields N))) := by
  refine ⟨?_, ?_, ?_⟩
  · rintro ⟨k, hks, hkf⟩ r hok
    exact hkf (((init_ok_elim t s r hok).2 k).mp hks)
  · rintro ⟨k, hkf, hks⟩ r hok
    exact hks (((init_ok_elim t s r hok).2 k).mpr hkf)
  · intro hmiss hextra
    obtain ⟨L, hL, _, _⟩ := init_missing t s hmiss
    refine ⟨L, hL, fun N hN => ?_⟩
    rw [hL] at hN
    simp at hN

/-- C5 witness: at a concrete input both missing `currency` and carrying
the unknown `bogus`, only the `MissingFields` error is reported. -/
theorem C5_both_checks_witness :
    ∃ L, Event.init OrderType
        [("amount", DictVal.ofValue (Value.vint 100)), ("bogus", DictVal.ofValue Value.vnone)]
        = .error (.construct (.missingFields L)) ∧
      ∀ N, Event.init OrderType
        [("amount", DictVal.ofValue (Value.vint 100)), ("bogus", DictVal.ofValue Value.vnone)]
        ≠ .error (.construct (.unexpectedFields N)) :=
  (C5_both_checks OrderType
      [("amount", DictVal.ofValue (Value.vint 100)), ("bogus", DictVal.ofValue Value.vnone)]).2.2
    ⟨"currency", by decide, by decide⟩ ⟨"bogus", by decide, by decide⟩

/-- C5 counterexample: an input that both omits `currency` and adds `bogus`
is reported with the missing-fields kind only, so the two error kinds are
not reported independently. -/
theorem C5_counterexample :
    Event.init OrderType
        [("amount", DictVal.ofValue (Value.vint 100)), ("bogus", DictVal.ofValue Value.vnone)]
      = .error (.construct (.missingFields ["currency"])) ∧
    ConstructError.missingFields ["currency"] ≠ ConstructError.unexpectedFields ["bogus"] :=
  ⟨rfl, by decide⟩

/-- C6: the claim says `A.x & B.y` returns a `JoinExpression` pairing the
two fields with no side effects. The code's `join` is a stub: it prints
the two field names (a side effect) and returns `None`, never a
`JoinExpression` value. -/
theorem C6_join_returns_none :
    FieldDescriptor.andOp { field := "amount" } { field := "price" }
      = (none, "join \x27amount\x27 with \x27price\x27") ∧
    (FieldDescriptor.andOp { field := "amount" } { field := "price" }).1 = none :=
  ⟨rfl, rfl⟩

/-- C7 (amended): only ancestors strictly below the root marker contribute
schema fields — the derived schema equals the merge of the strictly-below
layers and every schema field is declared by one of them; the marker's
own declarations contribute nothing (though a strictly-below ancestor may
redeclare a name the marker also uses). -/
theorem C7_fields_below_marker (t : RecordType) :
    fields t = mergeLayers t.layers ∧
    (∀ k, k ∈ fieldset t → ∃ l, l ∈ t.layers ∧ k ∈ l.map Prod.fst) := by
  refine ⟨fields_eq_mergeLayers t, fun k hk => ?_⟩
  obtain ⟨l, hl, hkl⟩ := (mem_fieldset_iff t k).mp hk
  exact ⟨l, hl, hkl⟩

/-- C7 witness: for the `Order` type, the schema is the merge of the
strictly-below layers and `amount` comes from one of them. -/
theorem C7_fields_below_marker_witness :
    fields OrderType = mergeLayers OrderType.layers ∧
    ∃ l, l ∈ OrderType.layers ∧ "amount" ∈ l.map Prod.fst :=
  ⟨(C7_fields_below_marker OrderType).1,
    (C7_fields_below_marker OrderType).2 "amount" (by decide)⟩

/-- C7 counterexample: a concrete record type redeclaring `req` below the
marker has `req` in its field names even though `req` is also declared on
the root marker itself, refuting the claim that field names contain no
field declared on the root marker. -/
theorem C7_counterexample :
    "req" ∈ fieldset ReqChildType ∧
    "req" ∈ ReqChildType.eventLayer.map Prod.fst := by decide

/-- C8: the claim says binding exposes one Field Descriptor per schema
field including inherited ones. The code reads the class's own
`__annotations__`, so for `Derived(Base)` with schema `[a, b, c]` the
bound event carries descriptors only for `Derived`'s own `{b, c}` and
none for the inherited `a`. -/
theorem C8_bound_event_misses_inherited_field :
    fieldset DerivedT = ["a", "b", "c"] ∧
    (BoundEvent.bind DerivedT Value.vnone).dict.map Prod.fst = ["b", "c"] ∧
    "a" ∈ fieldset DerivedT ∧
    "a" ∉ (BoundEvent.bind DerivedT Value.vnone).dict.map Prod.fst := by decide

/-- C9 (amended): the representation of a constructed record is
`<TypeName: k1=v1, k2=v2>` comma-space separated with each value rendered
by its own debug representation, but the fields appear in the insertion
order of the instance dictionary — the order the values were supplied at
construction — not in schema declaration order. -/
theorem C9_repr_insertion_order (t : RecordType) (s : DMap) (r : Record)
    (h : Event.init t s = .ok r) :
    Event.repr r = "<" ++ t.name ++ ": " ++ kvrepr s ++ ">" := by
  have hr := (init_ok_elim t s r h).1
  subst hr
  rfl

/-- C9 witness: the representation of a concrete constructed record,
rendered from its supplied field order. -/
theorem C9_repr_insertion_order_witness :
    Event.repr { type := PairType,
                 dict := [("b", DictVal.ofValue (Value.vint 2)), ("a", DictVal.ofValue (Value.vint 1))] }
      = "<" ++ PairType.name ++ ": "
        ++ kvrepr [("b", DictVal.ofValue (Value.vint 2)), ("a", DictVal.ofValue (Value.vint 1))] ++ ">" :=
  C9_repr_insertion_order PairType
    [("b", DictVal.ofValue (Value.vint 2)), ("a", DictVal.ofValue (Value.vint 1))] _ rfl

/-- C9 counterexample: a record of schema `[a, b]` constructed with the
values supplied in the order `b, a` prints `<Pair: b=2, a=1>`, not the
schema-ordered `<Pair: a=1, b=2>` the claim requires. -/
theorem C9_counterexample :
    Event.init PairType [("b", DictVal.ofValue (Value.vint 2)), ("a", DictVal.ofValue (Value.vint 1))]
      = .ok { type := PairType,
              dict := [("b", DictVal.ofValue (Value.vint 2)), ("a", DictVal.ofValue (Value.vint 1))] } ∧
    Event.repr { type := PairType,
                 dict := [("b", DictVal.ofValue (Value.vint 2)), ("a", DictVal.ofValue (Value.vint 1))] }
      = "<Pair: b=2, a=1>" ∧
    "<Pair: b=2, a=1>" ≠ "<Pair: a=1, b=2>" :=
  ⟨rfl, rfl, by decide⟩

/-- C10: declaring a subclass without a serializer argument sets the
subclass's serializer identifier to the unset value even when the parent
type declared one: the identifier is overwritten per declaration, never
inherited. -/
theorem C10_serializer_not_inherited (parent : RecordType) (own : AList)
    (nm sid : String) (h : parent.serializer = some sid) :
    (declareSubclass parent own none nm).serializer = none := rfl

/-- C10 witness: a subtype of a type declared with `serializer="json"` is
itself declared without one and ends up with no serializer. -/
theorem C10_serializer_not_inherited_witness :
    BaseJsonT.serializer = some "json" ∧
    (declareSubclass BaseJsonT [("y", Ty.tint)] none "Child").serializer = none :=
  ⟨rfl, C10_serializer_not_inherited BaseJsonT [("y", Ty.tint)] "Child" "json" rfl⟩

/-- C4: for a record type whose serializer identifier has a registered
codec that round-trips flat payload mappings, and any field mapping whose
key set equals the schema field set, serializing the record constructed
from that mapping and then deserializing the produced payload (decode
then construct) succeeds and yields a record whose field mapping equals
the original mapping. -/
theorem C4_roundtrip (reg : CodecRegistry) (t : RecordType) (sid : String)
    (c : Codec) (m : List (String × Value))
    (hser : t.serializer = some sid)
    (hreg : lookupCodec reg sid = some c)
    (hcodec : ∀ fm : List (String × Value),
      ∃ p, c.encode (liftMap fm) = some p ∧ c.decode p = some fm)
    (hkeys : ∀ k, k ∈ m.map Prod.fst ↔ k ∈ fieldset t) :
    ∃ r p r2,
      Event.init t (liftMap m) = .ok r ∧
      Event.dumps reg r = .ok p ∧
      deserialize reg t p = .ok r2 ∧
      r2.type = t ∧
      (∀ k, r2.dict.lookup k = (liftMap m).lookup k) := by
  have hiff : ∀ k, k ∈ keysOf (liftMap m) ↔ k ∈ fieldset t := by
    intro k
    rw [keysOf_liftMap]
    exact hkeys k
  have hcover : ∀ k ∈ (fields t).map Prod.fst, k ∈ m.map Prod.fst :=
    fun k hk => (hkeys k).mpr hk
  obtain ⟨p, henc, hdec⟩ := hcodec (projectV m (fields t))
  have hiff2 : ∀ k, k ∈ keysOf (liftMap (projectV m (fields t))) ↔ k ∈ fieldset t := by
    intro k
    rw [keysOf_liftMap, keys_projectV m (fields t) hcover]
    exact Iff.rfl
  refine ⟨{ type := t, dict := liftMap m }, p,
    { type := t, dict := liftMap (projectV m (fields t)) },
    init_eq_ok t (liftMap m) hiff, ?_, ?_, rfl, ?_⟩
  · have hasd : Event.asdict { type := t, dict := liftMap m }
        = .ok (liftMap (projectV m (fields t))) :=
      asdictAux_liftMap m (fields t) hcover
    have hreg2 : List.lookup sid reg = some c := hreg
    simp only [Event.dumps, hasd, serDumps, hser, lookupCodec]
    simp only [hreg2, henc]
  · have hinit := init_eq_ok t (liftMap (projectV m (fields t))) hiff2
    have hreg2 : List.lookup sid reg = some c := hreg
    simp only [deserialize, Event.loads, serLoads, hser, lookupCodec]
    simp only [hreg2, hdec, List.nil_append]
    exact hinit
  · intro k
    show (liftMap (projectV m (fields t))).lookup k = (liftMap m).lookup k
    rw [lookup_liftMap, lookup_liftMap]
    by_cases hk : k ∈ (fields t).map Prod.fst
    · rw [lookup_projectV_mem m (fields t) k hcover hk]
    · rw [lookup_projectV_not_mem m (fields t) k hk,
        lookup_none_of_not_mem m k (fun hm2 => hk ((hkeys k).mp hm2))]

/-- C4 witness: the concrete `Order` round trip through the json codec. -/
theorem C4_roundtrip_witness :
    ∃ r p r2,
      Event.init OrderType
        (liftMap [("amount", Value.vint 100), ("currency", Value.vstr "USD")]) = .ok r ∧
      Event.dumps demoRegistry r = .ok p ∧
      deserialize demoRegistry OrderType p = .ok r2 ∧
      r2.type = OrderType ∧
      (∀ k, r2.dict.lookup k
        = (liftMap [("amount", Value.vint 100), ("currency", Value.vstr "USD")]).lookup k) :=
  C4_roundtrip demoRegistry OrderType "json" jsonCodec
    [("amount", Value.vint 100), ("currency", Value.vstr "USD")]
    rfl rfl jsonCodec_roundtrip (fun k => Iff.rfl)

end Faust
